import Mathlib

/-!
Verification of the data-preparation pipeline of the educational-data dashboard
(`Código/dashboard.py`).

The pipeline is shallowly embedded as follows.

* A pandas `DataFrame` becomes a `Table`: a list of column names plus a list of
  rows, each row a list of cell values aligned positionally with the columns.
* A cell value (`Val`) is a missing marker (`na`, covering both `NaN` and
  `NaT`), a raw string, a rational number (modelling the int64/float64 values
  pandas produces), or a datetime at year granularity (`dt y`, modelling a
  `Timestamp` for January 1st of year `y`, as produced by
  `pd.to_datetime(..., format="%Y")`).
* Operations that can raise in Python return `Except String _`; a `.error`
  models an uncaught exception, so a total function models code that cannot
  raise past its boundary.
* `pd.to_numeric(..., errors="coerce")` on a datetime value yields the number
  of nanoseconds since the Unix epoch (`epochNs`), as pandas does when it
  numerifies a `datetime64[ns]` column.
-/

namespace Dashboard

/-- A cell value of a table.  `na` is the missing marker (pandas `NaN`/`NaT`),
`str` a raw string as delivered by the JSON API, `num` a numeric value, and
`dt y` a datetime at year granularity (January 1st of year `y`). -/
inductive Val where
  | na : Val
  | str : String → Val
  | num : Rat → Val
  | dt : Nat → Val
deriving DecidableEq

/-- A table (pandas `DataFrame`): column names plus rows of cells, a row's
`i`-th cell belonging to the `i`-th column. -/
structure Table where
  cols : List String
  rows : List (List Val)
deriving DecidableEq

instance {ε α : Type _} [DecidableEq ε] [DecidableEq α] : DecidableEq (Except ε α) :=
  fun x y =>
  match x, y with
  | .error a, .error b =>
    if h : a = b then isTrue (h ▸ rfl) else isFalse (fun hh => h (Except.error.inj hh))
  | .error _, .ok _ => isFalse (fun hh => Except.noConfusion hh)
  | .ok _, .error _ => isFalse (fun hh => Except.noConfusion hh)
  | .ok a, .ok b =>
    if h : a = b then isTrue (h ▸ rfl) else isFalse (fun hh => h (Except.ok.inj hh))

/-- Well-formedness: every row has exactly one cell per column. -/
def Table.WF (t : Table) : Prop := ∀ r ∈ t.rows, r.length = t.cols.length

instance (t : Table) : Decidable t.WF := by
  unfold Table.WF; infer_instance

/-- The empty table (zero rows, zero columns), `pd.DataFrame()`. -/
def Table.empty : Table := ⟨[], []⟩

/-- Index of a column name in a column list (pandas column lookup). -/
def findCol : List String → String → Option Nat
  | [], _ => none
  | c :: cs, name => if c = name then some 0 else (findCol cs name).map (· + 1)

/-- Numeric value of a list of decimal digit characters. -/
def natFromDigits (l : List Char) : Nat :=
  l.foldl (fun a c => a * 10 + (c.toNat - 48)) 0

/-- Decimal-string parsing as performed by `pd.to_numeric` on a string cell:
an optional sign followed by digits, with an optional fractional part.
A string that does not have this shape fails to parse. -/
def parseNumeric (s : String) : Option Rat :=
  let p : Bool × List Char :=
    match s.toList with
    | '-' :: r => (true, r)
    | '+' :: r => (false, r)
    | r => (false, r)
  let neg := p.1
  let ds := p.2
  if ds ≠ [] ∧ ds.all Char.isDigit then
    let n : Rat := (natFromDigits ds : Nat)
    some (if neg then -n else n)
  else
    match ds.splitOn '.' with
    | [a, b] =>
      if (a ++ b) ≠ [] ∧ (a ++ b).all Char.isDigit then
        let n : Rat := (natFromDigits a : Nat) + (natFromDigits b : Nat) / ((10 : Rat) ^ b.length)
        some (if neg then -n else n)
      else none
    | _ => none

/-- Number of leap years `k` with `1 ≤ k < y` (proleptic Gregorian calendar). -/
def leapsBefore (y : Nat) : Nat := (y - 1) / 4 + (y - 1) / 400 - (y - 1) / 100

/-- Nanoseconds from the Unix epoch (1970-01-01) to January 1st of year `y`:
the value stored in a pandas `datetime64[ns]` cell for that date, and hence the
number `pd.to_numeric` turns such a cell into. -/
def epochNs (y : Nat) : Int :=
  (365 * ((y : Int) - 1970) + ((leapsBefore y : Int) - (leapsBefore 1970 : Int)))
    * 86400000000000

/-- Parse a cell with `pd.to_datetime(..., format="%Y")` semantics (default
`errors="raise"`): missing stays missing (`NaT`), a datetime passes through,
a string must be exactly four digits, a number must be an integer whose
decimal form is four digits; the resulting year must lie within the
`Timestamp` range (whole years 1678–2262), otherwise the call raises. -/
def toDatetimeYear : Val → Except String Val
  | Val.na => .ok Val.na
  | Val.dt y => .ok (Val.dt y)
  | Val.num q =>
    if q.den = 1 ∧ 1678 ≤ q.num ∧ q.num ≤ 2262 then .ok (Val.dt q.num.toNat)
    else .error "ValueError"
  | Val.str s =>
    let ds := s.toList
    if ds.length = 4 ∧ ds.all Char.isDigit then
      let y := natFromDigits ds
      if 1678 ≤ y ∧ y ≤ 2262 then .ok (Val.dt y)
      else .error "OutOfBoundsDatetime"
    else .error "ValueError"

/-- `pd.to_numeric(..., errors="coerce")` on a single cell: numbers stay,
datetimes become their epoch-nanosecond value, parseable strings become their
number, everything else becomes the missing marker. -/
def toNumericVal : Val → Val
  | Val.na => Val.na
  | Val.num q => Val.num q
  | Val.dt y => Val.num ((epochNs y : Int) : Rat)
  | Val.str s =>
    match parseNumeric s with
    | some q => Val.num q
    | none => Val.na

/-- The two categorical columns exempted from numeric coercion. -/
def catCols : List String := ["departamento", "municipio"]

/-- Is the value numeric or missing (never a string, never a datetime)? -/
def isNumOrNa : Val → Bool
  | Val.na => true
  | Val.num _ => true
  | _ => false

/-- Is the value a datetime? -/
def isDtVal : Val → Bool
  | Val.dt _ => true
  | _ => false

/-- Coerce one row: cells of the two categorical columns are kept, all other
cells go through `toNumericVal` (the `for col in df_clean.columns` loop). -/
def coerceRow : List String → List Val → List Val
  | c :: cs, v :: vs =>
    (if c ∈ catCols then v else toNumericVal v) :: coerceRow cs vs
  | _, _ => []

/-- The coercion loop over the whole table. -/
def coerceNumeric (t : Table) : Table :=
  ⟨t.cols, t.rows.map (coerceRow t.cols)⟩

/-- `df.dropna()`: keep exactly the rows that contain no missing value. -/
def dropna (t : Table) : Table :=
  ⟨t.cols, t.rows.filter (fun r => decide (Val.na ∉ r))⟩

/-- Extract a column's values (`df[c]`); `[]` when the column is absent. -/
def getCol (t : Table) (c : String) : List Val :=
  match findCol t.cols c with
  | some i => t.rows.map (fun r => r.getD i Val.na)
  | none => []

/-- `df[c] = vals`: overwrite the column in place when present, otherwise
append it as a new last column. -/
def setCol (t : Table) (c : String) (vals : List Val) : Table :=
  match findCol t.cols c with
  | some i => ⟨t.cols, List.zipWith (fun r v => r.set i v) t.rows vals⟩
  | none => ⟨t.cols ++ [c], List.zipWith (fun r v => r ++ [v]) t.rows vals⟩

/-- `List.mapM` over `Except`, written recursively: applies `f` to each
element left to right and aborts with the first error (the way
`pd.to_datetime` raises on the first unparseable element). -/
def mapMExcept (f : α → Except String β) : List α → Except String (List β)
  | [] => .ok []
  | a :: l =>
    match f a with
    | .error e => .error e
    | .ok b =>
      match mapMExcept f l with
      | .error e => .error e
      | .ok bs => .ok (b :: bs)

/-- Step 1 of the cleaning block: `if 'a_o' in df.columns: df['Año'] =
pd.to_datetime(df['a_o'], format='%Y')`.  This assigns onto the raw table
itself; an unparseable year raises (propagated as `.error`). -/
def step1 (t : Table) : Except String Table :=
  match findCol t.cols "a_o" with
  | none => .ok t
  | some i =>
    match mapMExcept toDatetimeYear (t.rows.map (fun r => r.getD i Val.na)) with
    | .error e => .error e
    | .ok vals => .ok (setCol t "Año" vals)

/-- The cleaning block of `main`: derive the year column onto the raw table,
then `df_clean = df.dropna()`, then coerce every non-categorical column with
`pd.to_numeric(..., errors='coerce')`.  Returns the (possibly mutated) raw
table together with the cleaned table. -/
def clean (t : Table) : Except String (Table × Table) :=
  match step1 t with
  | .error e => .error e
  | .ok t1 => .ok (t1, coerceNumeric (dropna t1))

/-- Just the cleaned table produced by the cleaning block. -/
def cleanTable (t : Table) : Except String Table :=
  match clean t with
  | .error e => .error e
  | .ok p => .ok p.2

/-- `clean` applied twice in sequence (for the idempotence claim). -/
def cleanTwice (t : Table) : Except String Table :=
  match cleanTable t with
  | .error e => .error e
  | .ok c => cleanTable c

/-- Outcome of the HTTP fetch, as observed by `load_data_from_api`: a
transport-level failure (connection refused, timeout, non-2xx status — the
`requests.exceptions.RequestException` branch), a payload-decoding failure
(the generic `except Exception` branch), or a decoded JSON array of records,
each record a list of key/value pairs. -/
inductive FetchOutcome where
  | transportError : String → FetchOutcome
  | decodeError : String → FetchOutcome
  | ok : List (List (String × Val)) → FetchOutcome

/-- Is the outcome one of the two failure kinds? -/
def FetchOutcome.isFailure : FetchOutcome → Bool
  | .ok _ => false
  | _ => true

/-- `pd.DataFrame(list_of_dicts)`: columns are the record keys in order of
first appearance; a record lacking a key gets the missing marker there. -/
def dataFrameOfRecords (recs : List (List (String × Val))) : Table :=
  let cols := recs.foldl
    (fun acc r => r.foldl (fun a p => if p.1 ∈ a then a else a ++ [p.1]) acc) []
  ⟨cols, recs.map (fun r => cols.map (fun c =>
    match r.find? (fun p => p.1 = c) with
    | some p => p.2
    | none => Val.na))⟩

/-- `load_data_from_api`: on a successful fetch, the decoded records become a
table and nothing is reported; on either failure the caught exception is
reported via `st.error` (second component) and the empty table is returned.
The function is total: no exception escapes its boundary. -/
def load_data_from_api (resp : FetchOutcome) : Table × List String :=
  match resp with
  | .transportError m => (Table.empty, ["Error de conexión: " ++ m])
  | .decodeError m => (Table.empty, ["Error inesperado: " ++ m])
  | .ok recs => (dataFrameOfRecords recs, [])

/-- Elementwise equality as pandas `==` uses it: a missing value equals
nothing (not even itself); otherwise plain equality. -/
def valEq : Val → Val → Bool
  | Val.na, _ => false
  | _, Val.na => false
  | a, b => decide (a = b)

/-- `df_clean[df_clean['departamento'] == v]`: raises `KeyError` when the
column is absent, otherwise keeps exactly the matching rows in order. -/
def filter_by_division (t : Table) (v : Val) : Except String Table :=
  match findCol t.cols "departamento" with
  | none => .error "KeyError"
  | some i => .ok ⟨t.cols, t.rows.filter (fun r => valEq (r.getD i Val.na) v)⟩

/-- The numeric content of a cell for mean computation: missing values are
skipped, datetimes contribute their epoch-nanosecond value. -/
def ratOf : Val → Option Rat
  | Val.num q => some q
  | Val.dt y => some ((epochNs y : Int) : Rat)
  | _ => none

/-- Is the value a raw string (which would make `Series.mean` raise)? -/
def isStrVal : Val → Bool
  | Val.str _ => true
  | _ => false

/-- Arithmetic mean of a list of rationals, `none` when the list is empty
(pandas gives `NaN` for an all-missing group). -/
def meanOpt (l : List Rat) : Option Rat :=
  match l with
  | [] => none
  | _ => some (l.sum / (l.length : Rat))

/-- Distinct values in order of first appearance. -/
def distinctKeys (l : List Val) : List Val :=
  l.foldl (fun acc v => if v ∈ acc then acc else acc ++ [v]) []

/-- Mean of the metric cells (column `mi`) over the rows whose group cell
(column `gi`) equals `k`, skipping missing values. -/
def groupMean (rows : List (List Val)) (gi mi : Nat) (k : Val) : Option Rat :=
  meanOpt (((rows.filter (fun r => decide (r.getD gi Val.na = k))).map
    (fun r => r.getD mi Val.na)).filterMap ratOf)

/-- Descending comparison on optional means; `none` (pandas `NaN`) sorts after
every number, matching `sort_values(ascending=False)`'s `na_position='last'`. -/
def optGe (a b : Option Rat) : Prop :=
  match b with
  | none => True
  | some bv =>
    match a with
    | none => False
    | some av => bv ≤ av

instance : (a b : Option Rat) → Decidable (optGe a b) := fun a b =>
  match b with
  | none => isTrue trivial
  | some bv =>
    match a with
    | none => isFalse (fun h => h)
    | some av => inferInstanceAs (Decidable (bv ≤ av))

theorem optGe_total : ∀ a b : Option Rat, optGe a b ∨ optGe b a
  | _, none => Or.inl trivial
  | none, some _ => Or.inr trivial
  | some av, some bv => (le_total bv av).imp id id

theorem optGe_trans : ∀ {a b c : Option Rat}, optGe a b → optGe b c → optGe a c
  | _, _, none, _, _ => trivial
  | _, none, some _, _, h2 => h2.elim
  | none, some _, some _, h1, _ => h1.elim
  | some _, some _, some _, h1, h2 => le_trans h2 h1

/-- Descending order on (group key, mean) pairs, by the mean. -/
def pairGe (p q : Val × Option Rat) : Prop := optGe p.2 q.2

instance : DecidableRel pairGe := fun p q =>
  inferInstanceAs (Decidable (optGe p.2 q.2))

instance : IsTotal (Val × Option Rat) pairGe where
  total p q := optGe_total p.2 q.2

instance : IsTrans (Val × Option Rat) pairGe where
  trans _ _ _ h1 h2 := optGe_trans h1 h2

/-- `df.groupby(gb)[metric].mean().sort_values(ascending=False).head(n)`:
rows whose group key is missing are excluded (`groupby` default
`dropna=True`); a raw string in the metric column makes `mean` raise
(`TypeError`); group means skip missing values; results are sorted descending
by mean (missing means last) and truncated to the first `n` groups. -/
def top_n_by_mean (t : Table) (metric gb : String) (n : Nat) :
    Except String (List (Val × Option Rat)) :=
  match findCol t.cols gb with
  | none => .error "KeyError"
  | some gi =>
    match findCol t.cols metric with
    | none => .error "KeyError"
    | some mi =>
      let rows := t.rows.filter (fun r => decide (r.getD gi Val.na ≠ Val.na))
      if rows.any (fun r => isStrVal (r.getD mi Val.na)) then .error "TypeError"
      else
        let keys := distinctKeys (rows.map (fun r => r.getD gi Val.na))
        let pairs := keys.map (fun k => (k, groupMean rows gi mi k))
        .ok ((List.insertionSort pairGe pairs).take n)

/-- The year a cell parses to under `toDatetimeYear` (0 when it does not
parse to a datetime; only used where parsing is known to succeed). -/
def yearOf (v : Val) : Nat :=
  match toDatetimeYear v with
  | .ok (Val.dt y) => y
  | _ => 0

/-- Consistency of the derived `Año` column with the `a_o` source column:
whenever `a_o` is a column, `Año` is one too and in every row the `a_o` cell
parses to a year whose epoch-nanosecond value is exactly the `Año` cell.
This is the shape `clean` itself produces from API data. -/
def anioConsistent (c : Table) : Prop :=
  match findCol c.cols "a_o", findCol c.cols "Año" with
  | some ia, some iy =>
    ∀ r ∈ c.rows,
      toDatetimeYear (r.getD ia Val.na) = .ok (Val.dt (yearOf (r.getD ia Val.na))) ∧
      r.getD iy Val.na = Val.num ((epochNs (yearOf (r.getD ia Val.na)) : Int) : Rat)
  | some _, none => False
  | none, _ => True

instance (c : Table) : Decidable (anioConsistent c) := by
  unfold anioConsistent
  cases findCol c.cols "a_o" <;> cases findCol c.cols "Año" <;> infer_instance

/-! ### List helper lemmas -/

theorem getD_mem : ∀ (l : List α) (i : Nat) (d : α), i < l.length → l.getD i d ∈ l
  | a :: l, 0, _, _ => List.mem_cons_self a l
  | a :: l, i + 1, d, h =>
    List.mem_cons_of_mem a (getD_mem l i d (Nat.lt_of_succ_lt_succ h))

theorem take_append_length : ∀ (r : List α) (v : α), (r ++ [v]).take r.length = r
  | [], _ => rfl
  | a :: r, v => congrArg (a :: ·) (take_append_length r v)

theorem zipWith_map_right : ∀ (l : List α) (f : α → β) (g : α → β → γ),
    List.zipWith g l (l.map f) = l.map (fun a => g a (f a))
  | [], _, _ => rfl
  | _ :: l, f, g => congrArg _ (zipWith_map_right l f g)

theorem map_eq_self_of : ∀ {l : List α} {f : α → α}, (∀ a ∈ l, f a = a) → l.map f = l
  | [], _, _ => rfl
  | a :: l, f, h => by
    rw [List.map_cons, h a (List.mem_cons_self a l),
      map_eq_self_of (fun b hb => h b (List.mem_cons_of_mem a hb))]

theorem map_eq_self_mem : ∀ {l : List α} {f : α → α}, l.map f = l → ∀ a ∈ l, f a = a
  | [], _, _, a, ha => absurd ha (List.not_mem_nil a)
  | b :: l, f, h, a, ha => by
    rw [List.map_cons] at h
    have h1 : f b = b := (List.cons.inj h).1
    have h2 : l.map f = l := (List.cons.inj h).2
    rcases List.mem_cons.mp ha with rfl | ha2
    · exact h1
    · exact map_eq_self_mem h2 a ha2

theorem filter_all_eq : ∀ {l : List α} {p : α → Bool}, (∀ a ∈ l, p a = true) → l.filter p = l
  | [], _, _ => rfl
  | a :: l, p, h => by
    rw [List.filter_cons, h a (List.mem_cons_self a l)]
    simpa using filter_all_eq (fun b hb => h b (List.mem_cons_of_mem a hb))

theorem filter_eq_nil_of : ∀ {l : List α} {p : α → Bool}, (∀ a ∈ l, p a = false) → l.filter p = []
  | [], _, _ => rfl
  | a :: l, p, h => by
    rw [List.filter_cons, h a (List.mem_cons_self a l)]
    simpa using filter_eq_nil_of (fun b hb => h b (List.mem_cons_of_mem a hb))

theorem zipWith_length_eq : ∀ {l1 : List α} {l2 : List β} (f : α → β → γ),
    l1.length = l2.length → (List.zipWith f l1 l2).length = l1.length
  | [], [], _, _ => rfl
  | [], _ :: _, _, h => absurd h (by simp)
  | _ :: _, [], _, h => absurd h (by simp)
  | _ :: l1, _ :: l2, f, h => by
    simpa using zipWith_length_eq f (Nat.succ_injective h)

theorem map_take_zipWith : ∀ (rows : List (List α)) (vals : List α) (n : Nat),
    rows.length = vals.length → (∀ r ∈ rows, r.length = n) →
    (List.zipWith (fun r v => r ++ [v]) rows vals).map (List.take n) = rows
  | [], [], _, _, _ => rfl
  | [], _ :: _, _, h, _ => absurd h (by simp)
  | _ :: _, [], _, h, _ => absurd h (by simp)
  | r :: rows, v :: vals, n, h, hlen => by
    have hr : r.length = n := hlen r (List.mem_cons_self r rows)
    rw [List.zipWith_cons_cons, List.map_cons, ← hr, take_append_length,
      map_take_zipWith rows vals r.length (Nat.succ_injective h)
        (fun s hs => (hlen s (List.mem_cons_of_mem r hs)).trans hr.symm)]

theorem set_getD_self : ∀ (l : List α) (i : Nat) (d : α), i < l.length →
    l.set i (l.getD i d) = l
  | _ :: _, 0, _, _ => rfl
  | a :: l, i + 1, d, h =>
    congrArg (a :: ·) (set_getD_self l i d (Nat.lt_of_succ_lt_succ h))

theorem mem_set_cases : ∀ (l : List α) (i : Nat) (b a : α), a ∈ l.set i b → a ∈ l ∨ a = b
  | [], _, _, a, h => absurd h (List.not_mem_nil a)
  | _ :: _, 0, _, _, h => by
    rcases List.mem_cons.mp h with rfl | h2
    · exact Or.inr rfl
    · exact Or.inl (List.mem_cons_of_mem _ h2)
  | c :: l, i + 1, b, a, h => by
    rcases List.mem_cons.mp h with rfl | h2
    · exact Or.inl (List.mem_cons_self _ _)
    · exact (mem_set_cases l i b a h2).imp_left (List.mem_cons_of_mem c)

theorem mem_zipWith : ∀ {f : α → β → γ} {l1 : List α} {l2 : List β} {c : γ},
    c ∈ List.zipWith f l1 l2 → ∃ a b, a ∈ l1 ∧ b ∈ l2 ∧ c = f a b
  | _, [], _, c, h => absurd h (List.not_mem_nil c)
  | _, _ :: _, [], c, h => absurd h (List.not_mem_nil c)
  | f, a :: l1, b :: l2, c, h => by
    rcases List.mem_cons.mp h with rfl | h2
    · exact ⟨a, b, List.mem_cons_self _ _, List.mem_cons_self _ _, rfl⟩
    · obtain ⟨a', b', ha, hb, hc⟩ := mem_zipWith h2
      exact ⟨a', b', List.mem_cons_of_mem a ha, List.mem_cons_of_mem b hb, hc⟩

/-! ### Lemmas about `findCol` -/

theorem findCol_some : ∀ (cols : List String) (name : String) (i : Nat),
    findCol cols name = some i → i < cols.length ∧ cols.getD i "" = name
  | [], _, _, h => by simp [findCol] at h
  | c :: cs, name, i, h => by
    unfold findCol at h
    by_cases hc : c = name
    · rw [if_pos hc] at h
      cases h
      exact ⟨Nat.succ_pos _, hc⟩
    · rw [if_neg hc, Option.map_eq_some'] at h
      obtain ⟨j, hj, hji⟩ := h
      have := findCol_some cs name j hj
      subst hji
      exact ⟨Nat.succ_lt_succ this.1, this.2⟩

theorem findCol_none : ∀ (cols : List String) (name : String),
    findCol cols name = none → name ∉ cols
  | [], name, _ => List.not_mem_nil name
  | c :: cs, name, h => by
    unfold findCol at h
    by_cases hc : c = name
    · rw [if_pos hc] at h
      cases h
    · rw [if_neg hc] at h
      intro hmem
      rcases List.mem_cons.mp hmem with rfl | h2
      · exact hc rfl
      · exact findCol_none cs name (by simpa using h) h2

theorem findCol_none_of_not_mem : ∀ (cols : List String) (name : String),
    name ∉ cols → findCol cols name = none
  | [], _, _ => rfl
  | c :: cs, name, h => by
    unfold findCol
    have hc : ¬c = name := fun hh => h (hh ▸ List.mem_cons_self c cs)
    rw [if_neg hc, findCol_none_of_not_mem cs name (fun h2 => h (List.mem_cons_of_mem c h2))]
    rfl

theorem findCol_isSome_of_mem {cols : List String} {name : String} (h : name ∈ cols) :
    ∃ i, findCol cols name = some i := by
  cases hfc : findCol cols name with
  | none => exact absurd h (findCol_none cols name hfc)
  | some i => exact ⟨i, rfl⟩

/-! ### Lemmas about `mapMExcept` -/

theorem mapMExcept_ok_length : ∀ {f : α → Except String β} {l : List α} {l' : List β},
    mapMExcept f l = .ok l' → l'.length = l.length
  | _, [], _, h => by cases h; rfl
  | f, a :: l, l', h => by
    unfold mapMExcept at h
    cases hfa : f a with
    | error e => rw [hfa] at h; cases h
    | ok b =>
      rw [hfa] at h
      cases hrec : mapMExcept f l with
      | error e => rw [hrec] at h; cases h
      | ok bs =>
        rw [hrec] at h
        cases h
        simpa using mapMExcept_ok_length hrec

theorem mapMExcept_ok_of_forall : ∀ {f : α → Except String β} {g : α → β} {l : List α},
    (∀ a ∈ l, f a = .ok (g a)) → mapMExcept f l = .ok (l.map g)
  | _, _, [], _ => rfl
  | f, g, a :: l, h => by
    unfold mapMExcept
    rw [h a (List.mem_cons_self a l),
      mapMExcept_ok_of_forall (fun b hb => h b (List.mem_cons_of_mem a hb))]
    rfl

/-! ### Lemmas about cell coercion -/

theorem toNumericVal_numOrNa : ∀ v, isNumOrNa (toNumericVal v) = true := by
  intro v
  cases v with
  | str s => cases h : parseNumeric s <;> simp [toNumericVal, h, isNumOrNa]
  | _ => rfl

theorem toNumericVal_idem : ∀ v, toNumericVal (toNumericVal v) = toNumericVal v := by
  intro v
  cases v with
  | str s => cases h : parseNumeric s <;> simp [toNumericVal, h]
  | _ => rfl

theorem coerceRow_length : ∀ (cols : List String) (r : List Val),
    r.length = cols.length → (coerceRow cols r).length = cols.length
  | [], [], _ => rfl
  | [], _ :: _, h => absurd h (by simp)
  | _ :: _, [], h => absurd h (by simp)
  | _ :: cs, _ :: vs, h => by
    simpa [coerceRow] using coerceRow_length cs vs (Nat.succ_injective h)

theorem coerceRow_getD : ∀ (cols : List String) (r : List Val) (i : Nat),
    r.length = cols.length → i < cols.length →
    (coerceRow cols r).getD i Val.na =
      if cols.getD i "" ∈ catCols then r.getD i Val.na
      else toNumericVal (r.getD i Val.na)
  | [], _, i, _, hi => absurd hi (by simp)
  | _ :: _, [], _, h, _ => absurd h (by simp)
  | c :: cs, v :: vs, 0, _, _ => rfl
  | c :: cs, v :: vs, i + 1, h, hi =>
    coerceRow_getD cs vs i (Nat.succ_injective h) (Nat.lt_of_succ_lt_succ hi)

theorem coerceRow_set : ∀ (cols : List String) (r : List Val) (i : Nat) (v : Val),
    r.length = cols.length → i < cols.length →
    coerceRow cols (r.set i v) =
      (coerceRow cols r).set i
        (if cols.getD i "" ∈ catCols then v else toNumericVal v)
  | [], _, i, _, _, hi => absurd hi (by simp)
  | _ :: _, [], _, _, h, _ => absurd h (by simp)
  | c :: cs, w :: vs, 0, v, _, _ => by
    by_cases hc : c ∈ catCols <;> simp [coerceRow, hc]
  | c :: cs, w :: vs, i + 1, v, h, hi => by
    simp only [List.set, coerceRow]
    rw [coerceRow_set cs vs i v (Nat.succ_injective h) (Nat.lt_of_succ_lt_succ hi)]
    rfl

theorem coerceRow_idem : ∀ (cols : List String) (r : List Val),
    coerceRow cols (coerceRow cols r) = coerceRow cols r
  | [], _ => rfl
  | _ :: _, [] => rfl
  | c :: cs, v :: vs => by
    by_cases hc : c ∈ catCols <;>
      simp [coerceRow, hc, toNumericVal_idem, coerceRow_idem cs vs]

/-! ### Structural lemmas about the cleaning pipeline -/

theorem dropna_noNa {t : Table} : ∀ r ∈ (dropna t).rows, Val.na ∉ r := by
  intro r hr
  have := (List.mem_filter.mp hr).2
  exact of_decide_eq_true this

theorem dropna_sub {t : Table} : (dropna t).rows ⊆ t.rows :=
  fun _ hx => (List.mem_filter.mp hx).1

theorem dropna_WF {t : Table} (h : t.WF) : (dropna t).WF :=
  fun r hr => h r (dropna_sub hr)

theorem coerce_WF {t : Table} (h : t.WF) : (coerceNumeric t).WF := by
  intro r hr
  obtain ⟨s, hs, rfl⟩ := List.mem_map.mp hr
  exact coerceRow_length t.cols s (h s hs)

theorem coerceNumeric_idem (t : Table) : coerceNumeric (coerceNumeric t) = coerceNumeric t := by
  unfold coerceNumeric
  simp only [List.map_map]
  rw [show coerceRow t.cols ∘ coerceRow t.cols = coerceRow t.cols from
    funext (coerceRow_idem t.cols)]

theorem step1_WF {t t1 : Table} (h : t.WF) (h1 : step1 t = .ok t1) : t1.WF := by
  unfold step1 at h1
  cases hfa : findCol t.cols "a_o" with
  | none =>
    simp only [hfa] at h1
    cases h1
    exact h
  | some i =>
    simp only [hfa] at h1
    cases hmm : mapMExcept toDatetimeYear (t.rows.map (fun r => r.getD i Val.na)) with
    | error e => simp only [hmm] at h1; cases h1
    | ok vals =>
      simp only [hmm] at h1
      cases h1
      unfold setCol
      cases hfy : findCol t.cols "Año" with
      | some j =>
        simp only [hfy]
        intro r hr
        obtain ⟨a, b, ha, _, rfl⟩ := mem_zipWith hr
        simpa using h a ha
      | none =>
        simp only [hfy]
        intro r hr
        obtain ⟨a, b, ha, _, rfl⟩ := mem_zipWith hr
        simp [h a ha]

theorem clean_inv {t t1 c : Table} (h : clean t = .ok (t1, c)) :
    step1 t = .ok t1 ∧ c = coerceNumeric (dropna t1) := by
  unfold clean at h
  cases h1 : step1 t with
  | error e => simp only [h1] at h; cases h
  | ok s =>
    simp only [h1] at h
    have h2 := Except.ok.inj h
    have hs : s = t1 := congrArg Prod.fst h2
    have hc2 : coerceNumeric (dropna s) = c := congrArg Prod.snd h2
    subst hs
    exact ⟨rfl, hc2.symm⟩

theorem cleanTable_inv {t c : Table} (h : cleanTable t = .ok c) :
    ∃ t1, clean t = .ok (t1, c) := by
  unfold cleanTable at h
  cases hc : clean t with
  | error e => simp only [hc] at h; cases h
  | ok p =>
    simp only [hc] at h
    refine ⟨p.1, ?_⟩
    rw [← Except.ok.inj h]

theorem clean_WF {t t1 c : Table} (hwf : t.WF) (h : clean t = .ok (t1, c)) :
    t1.WF ∧ c.WF := by
  obtain ⟨h1, rfl⟩ := clean_inv h
  have ht1 := step1_WF hwf h1
  exact ⟨ht1, coerce_WF (dropna_WF ht1)⟩

theorem clean_rows {t t1 c : Table} (hwf : t.WF) (hc : clean t = .ok (t1, c)) :
    c.cols = t1.cols ∧
    ∀ row ∈ c.rows, ∃ r, r ∈ (dropna t1).rows ∧ row = coerceRow t1.cols r ∧
      r.length = t1.cols.length := by
  have ht1 := step1_WF hwf (clean_inv hc).1
  obtain ⟨_, rfl⟩ := clean_inv hc
  refine ⟨rfl, fun row hrow => ?_⟩
  obtain ⟨r, hr, rfl⟩ := List.mem_map.mp hrow
  exact ⟨r, hr, rfl, ht1 r (dropna_sub hr)⟩

theorem clean_cells_numOrNa {t t1 c : Table} (hwf : t.WF) (hc : clean t = .ok (t1, c)) :
    ∀ row ∈ c.rows, ∀ i, i < c.cols.length → c.cols.getD i "" ∉ catCols →
      isNumOrNa (row.getD i Val.na) = true := by
  obtain ⟨hcols, hrows⟩ := clean_rows hwf hc
  intro row hrow i hi hcat
  obtain ⟨r, _, rfl, hlen⟩ := hrows row hrow
  rw [hcols] at hi hcat
  rw [coerceRow_getD t1.cols r i hlen hi, if_neg hcat]
  exact toNumericVal_numOrNa _

theorem clean_cells_cat_noNa {t t1 c : Table} (hwf : t.WF) (hc : clean t = .ok (t1, c)) :
    ∀ row ∈ c.rows, ∀ i, i < c.cols.length → c.cols.getD i "" ∈ catCols →
      row.getD i Val.na ≠ Val.na := by
  obtain ⟨hcols, hrows⟩ := clean_rows hwf hc
  intro row hrow i hi hcat
  obtain ⟨r, hr, rfl, hlen⟩ := hrows row hrow
  rw [hcols] at hi hcat
  rw [coerceRow_getD t1.cols r i hlen hi, if_pos hcat]
  intro hna
  have : Val.na ∈ r := hna ▸ getD_mem r i Val.na (hlen ▸ hi)
  exact dropna_noNa r hr this

theorem step1_anio_mem {t t1 : Table} (ha : "a_o" ∈ t.cols) (h1 : step1 t = .ok t1) :
    "Año" ∈ t1.cols := by
  unfold step1 at h1
  cases hfa : findCol t.cols "a_o" with
  | none => exact absurd ha (findCol_none t.cols "a_o" hfa)
  | some i =>
    simp only [hfa] at h1
    cases hmm : mapMExcept toDatetimeYear (t.rows.map (fun r => r.getD i Val.na)) with
    | error e => simp only [hmm] at h1; cases h1
    | ok vals =>
      simp only [hmm] at h1
      cases h1
      unfold setCol
      cases hfy : findCol t.cols "Año" with
      | some j =>
        simp only [hfy]
        have := findCol_some t.cols "Año" j hfy
        exact this.2 ▸ getD_mem t.cols j "" this.1
      | none => simp [hfy]

theorem valEq_eq : ∀ {a b : Val}, valEq a b = true → a = b := fun {a b} h => by
  cases a <;> cases b <;> first
    | exact Bool.noConfusion h
    | exact of_decide_eq_true h

/-! ### Claim C1 -/

/-- A raw table with a non-numeric string in a non-categorical column. -/
def xC1 : Table := ⟨["departamento", "tasa"], [[Val.str "X", Val.str "bad"]]⟩

/-- What cleaning `xC1` produces. -/
def cC1 : Table := ⟨["departamento", "tasa"], [[Val.str "X", Val.na]]⟩

/-- Claim C1 is false as stated: cleaning `xC1` keeps its single row (it has
no missing value when `dropna` runs) but the numeric coercion then turns the
unparseable `tasa` cell into a missing marker, so the cleaned table does
contain a missing value. -/
theorem c1_counterexample :
    cleanTable xC1 = .ok cC1 ∧ ¬(∀ row ∈ cC1.rows, Val.na ∉ row) :=
  ⟨by decide, by decide⟩

/-- Claim C1 (amended): the missing-row drop leaves no missing value in any
row at the point it runs, and in the final cleaned table the categorical
columns hold no missing value; missing values can reappear only as markers
introduced by the later numeric coercion in non-categorical columns. -/
theorem c1_amended_no_missing (t t1 c : Table) (hwf : t.WF)
    (hc : clean t = .ok (t1, c)) :
    (∀ r ∈ (dropna t1).rows, Val.na ∉ r) ∧
    (∀ row ∈ c.rows, ∀ i, i < c.cols.length → c.cols.getD i "" ∈ catCols →
      row.getD i Val.na ≠ Val.na) :=
  ⟨fun r hr => dropna_noNa r hr, clean_cells_cat_noNa hwf hc⟩

/-- Witness: the amended C1 statement holds at the concrete table `xC1`. -/
theorem c1_amended_witness :
    xC1.WF ∧ clean xC1 = .ok (xC1, cC1) ∧
    ((∀ r ∈ (dropna xC1).rows, Val.na ∉ r) ∧
     (∀ row ∈ cC1.rows, ∀ i, i < cC1.cols.length → cC1.cols.getD i "" ∈ catCols →
       row.getD i Val.na ≠ Val.na)) :=
  ⟨by decide, by decide, c1_amended_no_missing xC1 xC1 cC1 (by decide) (by decide)⟩

/-! ### Claim C2 -/

/-- Claim C2: on any transport-level or payload-decoding failure,
`load_data_from_api` returns the empty table (zero rows, zero columns) and
reports the error to the caller; the function is total, so no exception
escapes its boundary. -/
theorem c2_load_failure_empty (r : FetchOutcome) (h : r.isFailure = true) :
    (load_data_from_api r).1.cols = [] ∧ (load_data_from_api r).1.rows = [] ∧
    (load_data_from_api r).2 ≠ [] := by
  cases r with
  | transportError m => exact ⟨rfl, rfl, by simp [load_data_from_api]⟩
  | decodeError m => exact ⟨rfl, rfl, by simp [load_data_from_api]⟩
  | ok recs => exact absurd h (by simp [FetchOutcome.isFailure])

/-- Witness: C2 at a concrete transport failure. -/
theorem c2_witness :
    (FetchOutcome.transportError "timeout").isFailure = true ∧
    ((load_data_from_api (FetchOutcome.transportError "timeout")).1.cols = [] ∧
     (load_data_from_api (FetchOutcome.transportError "timeout")).1.rows = [] ∧
     (load_data_from_api (FetchOutcome.transportError "timeout")).2 ≠ []) :=
  ⟨rfl, c2_load_failure_empty (FetchOutcome.transportError "timeout") rfl⟩

/-! ### Claim C3 -/

/-- Claim C3: when the grouping and metric columns exist and the metric
column holds no raw string, the aggregation succeeds and returns at most `n`
groups, sorted non-increasingly by mean (missing means last), each paired
with the mean of its metric values computed skipping missing values. -/
theorem c3_top_n_by_mean (t : Table) (metric gb : String) (n gi mi : Nat)
    (hg : findCol t.cols gb = some gi) (hm : findCol t.cols metric = some mi)
    (hs : (t.rows.filter (fun r => decide (r.getD gi Val.na ≠ Val.na))).any
      (fun r => isStrVal (r.getD mi Val.na)) = false) :
    ∃ l, top_n_by_mean t metric gb n = .ok l ∧ l.length ≤ n ∧
      List.Sorted pairGe l ∧
      ∀ p ∈ l, p.2 = groupMean
        (t.rows.filter (fun r => decide (r.getD gi Val.na ≠ Val.na))) gi mi p.1 := by
  set rows := t.rows.filter (fun r => decide (r.getD gi Val.na ≠ Val.na)) with hrowsdef
  set pairs := (distinctKeys (rows.map (fun r => r.getD gi Val.na))).map
    (fun k => (k, groupMean rows gi mi k)) with hpairsdef
  have htop : top_n_by_mean t metric gb n =
      .ok ((List.insertionSort pairGe pairs).take n) := by
    unfold top_n_by_mean
    rw [hg, hm]
    simp only [← hrowsdef, hs, Bool.false_eq_true, if_false, ← hpairsdef]
  refine ⟨(List.insertionSort pairGe pairs).take n, htop, ?_, ?_, ?_⟩
  · rw [List.length_take]
    exact Nat.min_le_left _ _
  · exact List.Pairwise.sublist (List.take_sublist n _)
      (List.sorted_insertionSort pairGe pairs)
  · intro p hp
    have hp2 : p ∈ pairs := (List.perm_insertionSort pairGe pairs).mem_iff.mp
      ((List.take_sublist n _).subset hp)
    obtain ⟨k, _, rfl⟩ := List.mem_map.mp hp2
    rfl

/-- A concrete cleaned table for the C3 witness. -/
def tC3 : Table :=
  ⟨["departamento", "tasa"], [[Val.str "A", Val.num 1], [Val.str "B", Val.num 3]]⟩

/-- Witness: C3 at the concrete table `tC3`. -/
theorem c3_witness :
    findCol tC3.cols "departamento" = some 0 ∧ findCol tC3.cols "tasa" = some 1 ∧
    (tC3.rows.filter (fun r => decide (r.getD 0 Val.na ≠ Val.na))).any
      (fun r => isStrVal (r.getD 1 Val.na)) = false ∧
    (∃ l, top_n_by_mean tC3 "tasa" "departamento" 10 = .ok l ∧ l.length ≤ 10 ∧
      List.Sorted pairGe l ∧
      ∀ p ∈ l, p.2 = groupMean
        (tC3.rows.filter (fun r => decide (r.getD 0 Val.na ≠ Val.na))) 0 1 p.1) :=
  ⟨by decide, by decide, by decide,
    c3_top_n_by_mean tC3 "tasa" "departamento" 10 0 1 (by decide) (by decide) (by decide)⟩

/-! ### Claim C4 -/

/-- Claim C4: after cleaning, every cell of every column outside the
categorical exemption set is numeric or missing — never a non-numeric
string. -/
theorem c4_noncat_numeric (t c : Table) (hwf : t.WF) (hc : cleanTable t = .ok c) :
    ∀ row ∈ c.rows, ∀ i, i < c.cols.length → c.cols.getD i "" ∉ catCols →
      isNumOrNa (row.getD i Val.na) = true := by
  obtain ⟨t1, hcl⟩ := cleanTable_inv hc
  exact clean_cells_numOrNa hwf hcl

/-- A raw table exercising year derivation, string coercion and a coercion
failure at once. -/
def xC4 : Table :=
  ⟨["departamento", "a_o", "tasa"], [[Val.str "X", Val.str "2019", Val.str "bad"]]⟩

/-- Cleaning `xC4`. -/
def cC4 : Table :=
  ⟨["departamento", "a_o", "tasa", "Año"],
   [[Val.str "X", Val.num 2019, Val.na, Val.num 1546300800000000000]]⟩

/-- Witness: C4 at the concrete table `xC4`. -/
theorem c4_witness :
    xC4.WF ∧ cleanTable xC4 = .ok cC4 ∧
    (∀ row ∈ cC4.rows, ∀ i, i < cC4.cols.length → cC4.cols.getD i "" ∉ catCols →
      isNumOrNa (row.getD i Val.na) = true) :=
  ⟨by decide, by decide, c4_noncat_numeric xC4 cC4 (by decide) (by decide)⟩

/-! ### Claim C5 -/

/-- A raw table with a well-formed year field. -/
def xC5 : Table := ⟨["a_o", "departamento"], [[Val.str "2019", Val.str "X"]]⟩

/-- The raw table after the in-place year assignment. -/
def r1C5 : Table :=
  ⟨["a_o", "departamento", "Año"], [[Val.str "2019", Val.str "X", Val.dt 2019]]⟩

/-- Cleaning `xC5`. -/
def cC5 : Table :=
  ⟨["a_o", "departamento", "Año"],
   [[Val.num 2019, Val.str "X", Val.num 1546300800000000000]]⟩

/-- Claim C5 is false as stated: the cleaned table derived from `xC5` has an
`Año` column, but its value is the number 1546300800000000000 (epoch
nanoseconds) — the coercion loop numerified the datetime, so the column is
not date/time-typed. -/
theorem c5_counterexample :
    cleanTable xC5 = .ok cC5 ∧
    getCol cC5 "Año" = [Val.num 1546300800000000000] ∧
    isDtVal (Val.num 1546300800000000000) = false :=
  ⟨by decide, by decide, rfl⟩

/-- Claim C5 (amended): when the raw table has an `a_o` column and cleaning
succeeds, the cleaned table does have a derived `Año` column, but — because
`Año` is not in the categorical exemption set — its values are numeric
(epoch nanoseconds) or missing, not datetimes. -/
theorem c5_amended_anio_numeric (t t1 c : Table) (hwf : t.WF) (ha : "a_o" ∈ t.cols)
    (hc : clean t = .ok (t1, c)) :
    "Año" ∈ c.cols ∧
    ∀ row ∈ c.rows, ∀ i, i < c.cols.length → c.cols.getD i "" = "Año" →
      isNumOrNa (row.getD i Val.na) = true := by
  have h1 := (clean_inv hc).1
  have hmem : "Año" ∈ c.cols := by
    rw [(clean_rows hwf hc).1]
    exact step1_anio_mem ha h1
  refine ⟨hmem, fun row hrow i hi hanio => ?_⟩
  exact clean_cells_numOrNa hwf hc row hrow i hi (by rw [hanio]; decide)

/-- Witness: the amended C5 statement at the concrete table `xC5`. -/
theorem c5_amended_witness :
    xC5.WF ∧ "a_o" ∈ xC5.cols ∧ clean xC5 = .ok (r1C5, cC5) ∧
    ("Año" ∈ cC5.cols ∧
     ∀ row ∈ cC5.rows, ∀ i, i < cC5.cols.length → cC5.cols.getD i "" = "Año" →
       isNumOrNa (row.getD i Val.na) = true) :=
  ⟨by decide, by decide, by decide,
    c5_amended_anio_numeric xC5 r1C5 cC5 (by decide) (by decide) (by decide)⟩

/-! ### Claim C6 -/

/-- A raw table whose year field cannot be parsed as a 4-digit year. -/
def xC6 : Table := ⟨["a_o", "departamento"], [[Val.str "bad", Val.str "X"]]⟩

/-- Claim C6 describes the intended behaviour (coerce malformed years to
missing); the code instead calls `pd.to_datetime` with the default
`errors="raise"`, so cleaning a table whose `a_o` field holds `"bad"` raises
a `ValueError` instead of producing a table. -/
theorem c6_malformed_year_raises : clean xC6 = .error "ValueError" := by decide

/-! ### Claim C7 -/

/-- Claim C7: filtering by division returns exactly the rows whose
`departamento` cell equals the given value, with the column list and row
order untouched; for a value matching no row the result has zero rows, and
no error is raised (the column being present). -/
theorem c7_filter_by_division (t : Table) (v : Val) (di : Nat)
    (hd : findCol t.cols "departamento" = some di) :
    filter_by_division t v =
      .ok ⟨t.cols, t.rows.filter (fun r => valEq (r.getD di Val.na) v)⟩ ∧
    ((∀ r ∈ t.rows, r.getD di Val.na ≠ v) →
      t.rows.filter (fun r => valEq (r.getD di Val.na) v) = []) := by
  constructor
  · unfold filter_by_division
    rw [hd]
  · intro habs
    apply filter_eq_nil_of
    intro r hr
    cases hv : valEq (r.getD di Val.na) v
    · rfl
    · exact absurd (valEq_eq hv) (habs r hr)

/-- A concrete cleaned table for the C7 witness. -/
def tC7 : Table :=
  ⟨["departamento", "tasa"], [[Val.str "A", Val.num 1], [Val.str "B", Val.num 3]]⟩

/-- Witness: C7 at `tC7` with a division value absent from the table. -/
theorem c7_witness :
    findCol tC7.cols "departamento" = some 0 ∧
    (filter_by_division tC7 (Val.str "Z") =
      .ok ⟨tC7.cols, tC7.rows.filter (fun r => valEq (r.getD 0 Val.na) (Val.str "Z"))⟩ ∧
     ((∀ r ∈ tC7.rows, r.getD 0 Val.na ≠ Val.str "Z") →
       tC7.rows.filter (fun r => valEq (r.getD 0 Val.na) (Val.str "Z")) = [])) :=
  ⟨by decide, c7_filter_by_division tC7 (Val.str "Z") 0 (by decide)⟩

/-! ### Claim C8 -/

/-- Claim C8 is half false: cleaning the empty table does yield the empty
table without raising, but the downstream aggregation raises a `KeyError`
(the grouping column is absent from a zero-column table) instead of
returning a zero-row table. -/
theorem c8_counterexample :
    clean Table.empty = .ok (Table.empty, Table.empty) ∧
    top_n_by_mean Table.empty "tasa" "departamento" 10 = .error "KeyError" :=
  ⟨by decide, by decide⟩

/-- Claim C8 (amended): cleaning the empty table yields the empty table
without raising; the downstream aggregation on the zero-column table fails
with a missing-column error for every metric choice, rather than returning
a zero-row table. -/
theorem c8_amended_empty_table (metric : String) (n : Nat) :
    clean Table.empty = .ok (Table.empty, Table.empty) ∧
    top_n_by_mean Table.empty metric "departamento" n = .error "KeyError" :=
  ⟨rfl, rfl⟩

/-! ### Claim C9 -/

/-- A raw table whose cleaning introduces a fresh missing value. -/
def xC9 : Table := ⟨["departamento", "tasa"], [[Val.str "Y", Val.str "oops"]]⟩

/-- Claim C9 is false as stated: cleaning `xC9` yields a one-row table with a
coercion-introduced missing marker; cleaning that result again drops the row,
so `clean (clean xC9) ≠ clean xC9`. -/
theorem c9_counterexample :
    cleanTable xC9 = .ok ⟨["departamento", "tasa"], [[Val.str "Y", Val.na]]⟩ ∧
    cleanTwice xC9 = .ok ⟨["departamento", "tasa"], []⟩ ∧
    cleanTwice xC9 ≠ cleanTable xC9 :=
  ⟨by decide, by decide, by decide⟩

/-- Core of the amended C9: `clean` is the identity on an already-clean
table — one with no missing value, already numerically coerced, and whose
`Año` column (when `a_o` is a column) agrees with the year parse of `a_o`,
which is exactly the shape `clean` produces from API data when coercion
introduces no new missing value. -/
theorem clean_identity (c : Table) (hwfc : c.WF) (hna : ∀ r ∈ c.rows, Val.na ∉ r)
    (hco : coerceNumeric c = c) (hanio : anioConsistent c) : cleanTable c = .ok c := by
  have hdrop : ∀ u : Table, u.rows = c.rows → dropna u = u := by
    intro u hu
    unfold dropna
    rw [filter_all_eq (fun r hr => decide_eq_true (hna r (hu ▸ hr)))]
  cases hfa : findCol c.cols "a_o" with
  | none =>
    have h1 : step1 c = .ok c := by
      unfold step1
      rw [hfa]
    simp only [cleanTable, clean, h1, hdrop c rfl, hco]
  | some ia =>
    cases hfy : findCol c.cols "Año" with
    | none =>
      exfalso
      unfold anioConsistent at hanio
      simp only [hfa, hfy] at hanio
    | some iy =>
      unfold anioConsistent at hanio
      simp only [hfa, hfy] at hanio
      have hiy := findCol_some c.cols "Año" iy hfy
      have hmapeq : c.rows.map (coerceRow c.cols) = c.rows := congrArg Table.rows hco
      have hmapM : mapMExcept toDatetimeYear (c.rows.map (fun r => r.getD ia Val.na)) =
          .ok ((c.rows.map (fun r => r.getD ia Val.na)).map (fun v => Val.dt (yearOf v))) := by
        apply mapMExcept_ok_of_forall
        intro v hv
        obtain ⟨r, hr, rfl⟩ := List.mem_map.mp hv
        exact (hanio r hr).1
      have hsets : setCol c "Año"
          ((c.rows.map (fun r => r.getD ia Val.na)).map (fun v => Val.dt (yearOf v))) =
          ⟨c.cols, c.rows.map (fun r => r.set iy (Val.dt (yearOf (r.getD ia Val.na))))⟩ := by
        unfold setCol
        simp only [hfy, List.map_map]
        rw [zipWith_map_right]
        simp [Function.comp]
      have h1 : step1 c = .ok
          ⟨c.cols, c.rows.map (fun r => r.set iy (Val.dt (yearOf (r.getD ia Val.na))))⟩ := by
        unfold step1
        rw [hfa]
        simp only [hmapM, hsets]
      have hrowwise : ∀ r ∈ c.rows,
          coerceRow c.cols (r.set iy (Val.dt (yearOf (r.getD ia Val.na)))) = r := by
        intro r hr
        have hrl : r.length = c.cols.length := hwfc r hr
        rw [coerceRow_set c.cols r iy _ hrl hiy.1, hiy.2,
          if_neg (by decide : ¬("Año" ∈ catCols)),
          map_eq_self_mem hmapeq r hr,
          show toNumericVal (Val.dt (yearOf (r.getD ia Val.na))) =
            Val.num ((epochNs (yearOf (r.getD ia Val.na)) : Int) : Rat) from rfl,
          ← (hanio r hr).2]
        exact set_getD_self r iy Val.na (hrl ▸ hiy.1)
      have hnoNew : ∀ row ∈ c.rows.map
          (fun r => r.set iy (Val.dt (yearOf (r.getD ia Val.na)))), Val.na ∉ row := by
        intro row hrow
        obtain ⟨r, hr, rfl⟩ := List.mem_map.mp hrow
        intro hmem
        rcases mem_set_cases _ _ _ _ hmem with h2 | h2
        · exact hna r hr h2
        · cases h2
      have hdrop2 : dropna
          ⟨c.cols, c.rows.map (fun r => r.set iy (Val.dt (yearOf (r.getD ia Val.na))))⟩ =
          ⟨c.cols, c.rows.map (fun r => r.set iy (Val.dt (yearOf (r.getD ia Val.na))))⟩ := by
        unfold dropna
        rw [filter_all_eq (fun r hr => decide_eq_true (hnoNew r hr))]
      have hcoerce : coerceNumeric
          ⟨c.cols, c.rows.map (fun r => r.set iy (Val.dt (yearOf (r.getD ia Val.na))))⟩ = c := by
        unfold coerceNumeric
        simp only [List.map_map]
        have hcomp : List.map
            (coerceRow c.cols ∘ fun r => r.set iy (Val.dt (yearOf (r.getD ia Val.na)))) c.rows =
            List.map
            (fun r => coerceRow c.cols (r.set iy (Val.dt (yearOf (r.getD ia Val.na))))) c.rows :=
          rfl
        rw [hcomp, map_eq_self_of hrowwise]
      simp only [cleanTable, clean, h1, hdrop2, hcoerce]

/-- Claim C9 (amended): `clean` is idempotent on already-clean input — when
the first cleaning introduces no missing value and the cleaned `a_o` column
(when present) is consistent with the derived `Año` column (automatic for
string/number API data), a second cleaning changes nothing:
`clean (clean x) = clean x`. -/
theorem c9_amended_idempotent (x c : Table) (hwf : x.WF) (hx : cleanTable x = .ok c)
    (hna : ∀ r ∈ c.rows, Val.na ∉ r) (hanio : anioConsistent c) :
    cleanTwice x = cleanTable x := by
  obtain ⟨t1, hcl⟩ := cleanTable_inv hx
  have hwfc : c.WF := (clean_WF hwf hcl).2
  have hco : coerceNumeric c = c := by
    obtain ⟨h1, rfl⟩ := clean_inv hcl
    exact coerceNumeric_idem (dropna t1)
  unfold cleanTwice
  simp only [hx]
  rw [clean_identity c hwfc hna hco hanio]

/-- A table whose cleaning is lossless (all values parse). -/
def xC9w : Table :=
  ⟨["a_o", "departamento", "tasa"], [[Val.str "2019", Val.str "X", Val.str "7"]]⟩

/-- Cleaning `xC9w`. -/
def cC9w : Table :=
  ⟨["a_o", "departamento", "tasa", "Año"],
   [[Val.num 2019, Val.str "X", Val.num 7, Val.num 1546300800000000000]]⟩

/-- Witness: the amended C9 statement at the concrete table `xC9w`. -/
theorem c9_amended_witness :
    xC9w.WF ∧ cleanTable xC9w = .ok cC9w ∧ (∀ r ∈ cC9w.rows, Val.na ∉ r) ∧
    anioConsistent cC9w ∧ cleanTwice xC9w = cleanTable xC9w :=
  ⟨by decide, by decide, by decide, by decide,
    c9_amended_idempotent xC9w cC9w (by decide) (by decide) (by decide) (by decide)⟩

/-! ### Claim C10 -/

/-- Claim C10: the cleaning step mutates the session-stored raw table: when
`a_o` is a column (and `Año` not yet one) and cleaning succeeds, the raw
table handed back has gained a trailing `Año` column while all its original
columns and rows are unchanged. -/
theorem c10_raw_table_mutated (t t1 c : Table) (hwf : t.WF) (ha : "a_o" ∈ t.cols)
    (hno : "Año" ∉ t.cols) (hc : clean t = .ok (t1, c)) :
    t1.cols = t.cols ++ ["Año"] ∧ t1.rows.length = t.rows.length ∧
    t1.rows.map (List.take t.cols.length) = t.rows := by
  have h1 := (clean_inv hc).1
  unfold step1 at h1
  obtain ⟨ia, hia⟩ := findCol_isSome_of_mem ha
  simp only [hia] at h1
  cases hmm : mapMExcept toDatetimeYear (t.rows.map (fun r => r.getD ia Val.na)) with
  | error e => simp only [hmm] at h1; cases h1
  | ok vals =>
    simp only [hmm] at h1
    have hvl : vals.length = t.rows.length := by
      simpa using mapMExcept_ok_length hmm
    have hfy : findCol t.cols "Año" = none := findCol_none_of_not_mem t.cols "Año" hno
    unfold setCol at h1
    simp only [hfy] at h1
    cases h1
    refine ⟨rfl, ?_, ?_⟩
    · exact zipWith_length_eq _ hvl.symm
    · exact map_take_zipWith t.rows vals t.cols.length hvl.symm (fun r hr => hwf r hr)

/-- A raw table with an `a_o` column for the C10 witness. -/
def xC10 : Table := ⟨["a_o", "departamento"], [[Val.str "2019", Val.str "X"]]⟩

/-- The session-stored raw table after cleaning `xC10`. -/
def r1C10 : Table :=
  ⟨["a_o", "departamento", "Año"], [[Val.str "2019", Val.str "X", Val.dt 2019]]⟩

/-- The cleaned table produced from `xC10`. -/
def cC10 : Table :=
  ⟨["a_o", "departamento", "Año"],
   [[Val.num 2019, Val.str "X", Val.num 1546300800000000000]]⟩

/-- Witness: C10 at the concrete table `xC10`. -/
theorem c10_witness :
    xC10.WF ∧ "a_o" ∈ xC10.cols ∧ "Año" ∉ xC10.cols ∧
    clean xC10 = .ok (r1C10, cC10) ∧
    (r1C10.cols = xC10.cols ++ ["Año"] ∧ r1C10.rows.length = xC10.rows.length ∧
     r1C10.rows.map (List.take xC10.cols.length) = xC10.rows) :=
  ⟨by decide, by decide, by decide, by decide,
    c10_raw_table_mutated xC10 r1C10 cC10 (by decide) (by decide) (by decide) (by decide)⟩

end Dashboard
